import Mathlib

/-!
A shallow embedding of `src/index.js` of the `indexed` wrapper around the
browser key/value storage engine, together with theorems about the embedded
operations.

Modelling conventions:
* JavaScript values that the wrapper inspects (bound options, keys, stored
  values) are modelled by the inductive `JSVal`; `undef` stands for
  `undefined` (an absent option field).
* Machinery of the external storage engine (transactions, requests,
  cursors) is out of scope; each operation is embedded as a function of the
  engine's reported outcome for that operation (an `Except Err` value, or a
  per-cursor-step fate for the streaming read).
* A promise that settles is modelled by `JSResult`: `resolved` for the
  `{data, err}` objects the wrapper passes to `resolve`, and `rejected` for
  a promise rejection (a `throw` inside the executor).
* The process-wide hook `Indexed.onerror` is modelled by a `hookSet` flag;
  each embedded operation additionally returns the list of errors the hook
  was invoked with.
-/

/-- A JavaScript value as far as the wrapper inspects one.  `undef` stands
for `undefined`; `NaN` is not modelled. -/
inductive JSVal where
  | undef
  | null
  | bool (b : Bool)
  | num (n : Int)
  | str (s : String)
deriving DecidableEq

/-- JavaScript truthiness for the modelled values. -/
def truthy : JSVal → Bool
  | .undef => false
  | .null => false
  | .bool b => b
  | .num n => n != 0
  | .str s => s != ""

/-- The JavaScript test `typeof x !== 'undefined'`.  Note that `null`
counts as defined. -/
def isDefined : JSVal → Bool
  | .undef => false
  | _ => true

/-- JavaScript `a || b` on the modelled values. -/
def jsOr (a b : JSVal) : JSVal :=
  if truthy a then a else b

/-- The options object consumed by `getRange` (`src/index.js` lines 22-46).
A field holds `undef` when the key was not supplied. -/
structure RangeOpts where
  lt : JSVal
  lte : JSVal
  gt : JSVal
  gte : JSVal
deriving DecidableEq

/-- The engine's `IDBKeyRange` values that `getRange` can build:
`bound(lower, upper, lowerOpen, upperOpen)`, `upperBound(upper, open)`,
`lowerBound(lower, open)`. -/
inductive KeyRange where
  | bound (lower upper : JSVal) (lowerOpen upperOpen : Bool)
  | upperBound (upper : JSVal) (isOpen : Bool)
  | lowerBound (lower : JSVal) (isOpen : Bool)
deriving DecidableEq

/-- `getRange` from `src/index.js` lines 22-46.  `none` models the
JavaScript `undefined` return (no filtering, full-table scan).
The source computes `exLower = typeof o.lt !== 'undefined'` and
`exUpper = typeof o.gt !== 'undefined'` and passes them as the third and
fourth argument of `IDBKeyRange.bound` (which are `lowerOpen` and
`upperOpen` respectively). -/
def getRange (o : RangeOpts) : Option KeyRange :=
  let exLower := isDefined o.lt
  let exUpper := isDefined o.gt
  if truthy (jsOr o.lte o.lt) && truthy (jsOr o.gte o.gt) then
    some (.bound (jsOr o.gte o.gt) (jsOr o.lte o.lt) exLower exUpper)
  else if truthy (jsOr o.lte o.lt) then
    some (.upperBound (jsOr o.lte o.lt) exLower)
  else if truthy (jsOr o.gte o.gt) then
    some (.lowerBound (jsOr o.gte o.gt) exUpper)
  else
    none

/-- Errors observable through the wrapper: the `new Error('Not Found')`
of `get`, the `TypeError` raised by calling a method on `undefined`, and
engine-reported error events (`event.target`), told apart by an id. -/
inductive Err where
  | notFound
  | typeErr
  | target (id : Nat)
deriving DecidableEq

/-- The `{data, err}` objects the wrapper resolves with: `{}`,
`{data: v}`, or `{err: e}`. -/
inductive OpOut where
  | empty
  | data (v : JSVal)
  | err (e : Err)
deriving DecidableEq

/-- The outcome of one wrapper promise: settled by `resolve`, or rejected
(a synchronous `throw` inside the executor). -/
inductive JSResult where
  | resolved (o : OpOut)
  | rejected (e : Err)
deriving DecidableEq

/-- Result of `getStore` (`src/index.js` lines 8-15): on success the
`{tx, store}` object, and when `db.transaction` throws, the
`Promise.reject({err: error})` value the catch branch returns. -/
inductive GetStoreResult where
  | ok
  | rejectedPromise (e : Err)
deriving DecidableEq

/-- `getStore` from `src/index.js` lines 8-15.  `txThrows = some e` models
`db.transaction(loc, type)` throwing `e` (e.g. the object store is
missing); the catch branch returns a rejected promise. -/
def getStore (txThrows : Option Err) : GetStoreResult :=
  match txThrows with
  | none => .ok
  | some e => .rejectedPromise e

/-- The callers' destructuring `const { store } = getStore(...)`: on the
`{tx, store}` object the `store` field is defined (`true`); on a rejected
`Promise` object there is no `store` property, so `store` is `undefined`
(`false`), and any subsequent `store.method()` call throws a `TypeError`
inside the promise executor, rejecting the operation's promise. -/
def destructureStore : GetStoreResult → Bool
  | .ok => true
  | .rejectedPromise _ => false

/-- A stored record, `{key, value}` flattened to a pair. -/
abbrev Row : Type := JSVal × JSVal

/-- The engine's point lookup over modelled table contents: the record
whose `key` field equals `k`, if any. -/
def store_get (tbl : List Row) (k : JSVal) : Option Row :=
  tbl.find? (fun p => p.1 = k)

/-- `count` from `src/index.js` lines 112-120.  `engine` is the outcome the
engine reports for `store.count()` (`r.onsuccess` with `r.result`, or
`r.onerror`/`r.onblocked` with an error event).  The success branch applies
`r.result || 0`.  The error handlers do not consult `Indexed.onerror`, so
the hook-invocation list is always empty.  When `db.transaction` threw, the
destructured `store` is `undefined` and `store.count()` throws, rejecting
the promise. -/
def count_run (hookSet : Bool) (txThrows : Option Err) (engine : Except Err Nat) :
    List Err × JSResult :=
  if destructureStore (getStore txThrows) then
    match engine with
    | .ok n => ([], .resolved (.data (.num (if (n : Int) = 0 then 0 else (n : Int)))))
    | .error e => ([], .resolved (.err e))
  else
    ([], .rejected .typeErr)

/-- Outcome of the engine's `deleteDatabase` request used by `drop`. -/
inductive DropOutcome where
  | success
  | errored (e : Err)
  | blocked (e : Err)
deriving DecidableEq

/-- Static `drop` from `src/index.js` lines 69-76: `onsuccess` resolves
`{data: true}`, `onerror` and `onblocked` resolve `{err}`.  None of the
handlers consults `Indexed.onerror`. -/
def drop_run (hookSet : Bool) : DropOutcome → List Err × JSResult
  | .success => ([], .resolved (.data (.bool true)))
  | .errored e => ([], .resolved (.err e))
  | .blocked e => ([], .resolved (.err e))

/-- `has` from `src/index.js` lines 127-139: `r.onsuccess` resolves
`{data: typeof this.result !== 'undefined'}`; `r.onerror` invokes
`Indexed.onerror` when set and resolves `{err}`. -/
def has_run (hookSet : Bool) (txThrows : Option Err) (engine : Except Err (Option Row)) :
    List Err × JSResult :=
  if destructureStore (getStore txThrows) then
    match engine with
    | .ok r => ([], .resolved (.data (.bool r.isSome)))
    | .error e => (if hookSet then [e] else [], .resolved (.err e))
  else
    ([], .rejected .typeErr)

/-- `get` from `src/index.js` lines 146-161: an undefined `this.result`
resolves `{err: new Error('Not Found')}`, a record resolves
`{data: this.result.value}`; `r.onerror` invokes `Indexed.onerror` when
set and resolves `{err}`. -/
def get_run (hookSet : Bool) (txThrows : Option Err) (engine : Except Err (Option Row)) :
    List Err × JSResult :=
  if destructureStore (getStore txThrows) then
    match engine with
    | .ok none => ([], .resolved (.err .notFound))
    | .ok (some rec) => ([], .resolved (.data rec.2))
    | .error e => (if hookSet then [e] else [], .resolved (.err e))
  else
    ([], .rejected .typeErr)

/-- `put` from `src/index.js` lines 169-179: success resolves `{}`;
`r.onerror` invokes `Indexed.onerror` when set and resolves `{err}`. -/
def put_run (hookSet : Bool) (txThrows : Option Err) (engine : Except Err Unit) :
    List Err × JSResult :=
  if destructureStore (getStore txThrows) then
    match engine with
    | .ok _ => ([], .resolved .empty)
    | .error e => (if hookSet then [e] else [], .resolved (.err e))
  else
    ([], .rejected .typeErr)

/-- `del` from `src/index.js` lines 186-196: success resolves `{}`;
`r.onerror` invokes `Indexed.onerror` when set and resolves `{err}`. -/
def del_run (hookSet : Bool) (txThrows : Option Err) (engine : Except Err Unit) :
    List Err × JSResult :=
  if destructureStore (getStore txThrows) then
    match engine with
    | .ok _ => ([], .resolved .empty)
    | .error e => (if hookSet then [e] else [], .resolved (.err e))
  else
    ([], .rejected .typeErr)

/-- One element of the list handed to `batch`: `{type, key, value}`. -/
structure BatchOp where
  type : String
  key : JSVal
  value : JSVal
deriving DecidableEq

/-- An operation queued on the transaction's object store by `batch`:
`store.put({key, value})` or `store.delete(key)`. -/
inductive StoreAction where
  | putA (key value : JSVal)
  | delA (key : JSVal)
deriving DecidableEq

/-- The `eachOp` callback of `batch` (`src/index.js` lines 212-220): a
`put` element queues `store.put({key: op.key, value: op.value})`, a `del`
element queues `store.delete(op.key)`, any other `type` queues nothing. -/
def eachOp (op : BatchOp) : List StoreAction :=
  (if op.type = "put" then [StoreAction.putA op.key op.value] else []) ++
  (if op.type = "del" then [StoreAction.delA op.key] else [])

/-- `ops.forEach(eachOp)` of `batch`: the actions queued on the store, in
list order. -/
def batch_queue : List BatchOp → List StoreAction
  | [] => []
  | op :: rest => eachOp op ++ batch_queue rest

/-- JavaScript `Map.prototype.set` over insertion-ordered entries: an
existing key keeps its position and gets the new value, a new key is
appended. -/
def mapSet : List Row → JSVal → JSVal → List Row
  | [], k, v => [(k, v)]
  | p :: rest, k, v => if p.1 = k then (k, v) :: rest else p :: mapSet rest k v

/-- JavaScript `Map.prototype.get` over insertion-ordered entries. -/
def mapLookup : List Row → JSVal → Option JSVal
  | [], _ => none
  | p :: rest, k => if p.1 = k then some p.2 else mapLookup rest k

/-- Effect of one queued action on modelled table contents (the record with
the matching `key` field is replaced or removed). -/
def applyAction (tbl : List Row) : StoreAction → List Row
  | .putA k v => mapSet tbl k v
  | .delA k => tbl.filter (fun p => p.1 != k)

/-- Applying a queued action list to modelled table contents in order. -/
def applyActions (tbl : List Row) (acts : List StoreAction) : List Row :=
  acts.foldl applyAction tbl

/-- `batch` from `src/index.js` lines 203-224.  Returns the actions queued
on the store, the `Indexed.onerror` invocations, and the settled promise:
`tx.oncomplete` resolves `{}`, `tx.onerror` invokes the hook when set and
resolves `{err}`.  When `db.transaction` threw, the destructured `tx` is
`undefined` and `tx.onerror = ...` throws before anything is queued,
rejecting the promise. -/
def batch_run (hookSet : Bool) (txThrows : Option Err) (ops : List BatchOp)
    (txOutcome : Except Err Unit) : List StoreAction × List Err × JSResult :=
  match txThrows with
  | some _ => ([], [], .rejected .typeErr)
  | none =>
    match txOutcome with
    | .ok _ => (batch_queue ops, [], .resolved .empty)
    | .error e => (batch_queue ops, if hookSet then [e] else [], .resolved (.err e))

/-- An event delivered to the `events` handle of `read`. -/
inductive ReadEvent where
  | ondata (key value : JSVal)
  | onend
  | onerror (e : Err)
deriving DecidableEq

/-- What the engine does at one cursor step of `read`: the cursor request
succeeds (`ok`), the cursor request itself errors (`cursorErr`, the
`r.onerror` of `openCursor`), or the secondary `store.get` of the record at
the cursor's key errors (`getErr`). -/
inductive StepFate where
  | ok
  | cursorErr (e : Err)
  | getErr (e : Err)
deriving DecidableEq

/-- Truthiness of `opts.limit`, modelled as `Option Nat`: `none` is an
absent (`undefined`) limit, `some 0` a supplied falsy one. -/
def truthyLimit : Option Nat → Bool
  | none => false
  | some n => n != 0

/-- The cursor pipeline of `read` (`src/index.js` lines 250-291), embedded
over the list of records the opened cursor would deliver, in cursor order.
`fates idx` is the engine's behaviour at the cursor step with index `idx`.
Returns the events delivered through the `events` handle (all three
handlers assumed attached) and the `Indexed.onerror` invocations.

Per step with a pending record, `onSuccess` issues `store.get` for the
cursor's key, fires `ondata(key, value)` with the freshly read record, then
evaluates `opts.limit && (count++ === opts.limit - 1)`: when it holds it
fires `onend` and stops without `cursor.continue()`; note `count` is only
incremented when `opts.limit` is truthy (short-circuit).  When the cursor
is exhausted (`cursor` is `null`, no secondary `get` is issued) it fires
`onend`.  An error at a step fires `onerror` (after the hook) and nothing
advances the cursor afterwards. -/
def readGoE (hookSet : Bool) (fates : Nat → StepFate) (limit : Option Nat) :
    Nat → Nat → List Row → List ReadEvent × List Err
  | idx, _, [] =>
    match fates idx with
    | .cursorErr e => ([.onerror e], if hookSet then [e] else [])
    | _ => ([.onend], [])
  | idx, count, (k, v) :: rest =>
    match fates idx with
    | .cursorErr e => ([.onerror e], if hookSet then [e] else [])
    | .getErr e => ([.onerror e], if hookSet then [e] else [])
    | .ok =>
      if truthyLimit limit then
        if count = limit.getD 0 - 1 then
          ([.ondata k v, .onend], [])
        else
          (ReadEvent.ondata k v :: (readGoE hookSet fates limit (idx + 1) (count + 1) rest).1,
            (readGoE hookSet fates limit (idx + 1) (count + 1) rest).2)
      else
        (ReadEvent.ondata k v :: (readGoE hookSet fates limit (idx + 1) count rest).1,
          (readGoE hookSet fates limit (idx + 1) count rest).2)

/-- The error-free run of the `read` pipeline: every cursor step and
secondary lookup succeeds. -/
def read_run (matching : List Row) (limit : Option Nat) : List ReadEvent :=
  (readGoE false (fun _ => StepFate.ok) limit 0 0 matching).1

/-- What `readAll` resolves with: `{data: rows}` or `{err}`. -/
inductive ReadAllOut where
  | data (rows : List Row)
  | err (e : Err)
deriving DecidableEq

/-- The handler loop of `readAll` (`src/index.js` lines 231-243) consuming
the event stream of `read`: `ondata(key, value)` performs
`rows.set(key, value)`, `onend` resolves `{data: rows}`, `onerror` invokes
`Indexed.onerror` when set and resolves `{err}`.  `resolve` settles the
promise, so events after the first terminal one are ignored; `none` means
the promise never settles.  Also returns the hook invocations made by
`readAll`'s own `onerror` handler. -/
def readAll_go (hookSet : Bool) (rows : List Row) :
    List ReadEvent → Option ReadAllOut × List Err
  | [] => (none, [])
  | .ondata k v :: rest => readAll_go hookSet (mapSet rows k v) rest
  | .onend :: _ => (some (.data rows), [])
  | .onerror e :: _ => (some (.err e), if hookSet then [e] else [])

/-- `readAll` over a given event stream, starting from `new Map()`. -/
def readAll_run (hookSet : Bool) (trace : List ReadEvent) : Option ReadAllOut × List Err :=
  readAll_go hookSet [] trace

/-- The `(key, value)` payloads of the `ondata` events of a stream, in
order. -/
def ondataPairs (trace : List ReadEvent) : List Row :=
  trace.filterMap (fun e =>
    match e with
    | .ondata k v => some (k, v)
    | _ => none)

/-- Accumulating a pair list into a map with `Map.prototype.set`, starting
empty. -/
def foldMapSet (pairs : List Row) : List Row :=
  pairs.foldl (fun m p => mapSet m p.1 p.2) []

/-- The value delivered last for a key in a pair list, if any. -/
def lastAssoc : List Row → JSVal → Option JSVal
  | [], _ => none
  | p :: rest, k =>
    match lastAssoc rest k with
    | some v => some v
    | none => if p.1 = k then some p.2 else none

/-- First-occurrence deduplication of a key list, keeping order, on top of
an already-seen prefix. -/
def firstDedupFrom (seen : List JSVal) : List JSVal → List JSVal
  | [] => seen
  | k :: ks => if k ∈ seen then firstDedupFrom seen ks else firstDedupFrom (seen ++ [k]) ks

/-- The keys of a list in order of first occurrence, each once. -/
def firstOccurrences (l : List JSVal) : List JSVal :=
  firstDedupFrom [] l

/-! ## Helper lemmas -/

theorem truthy_jsOr (a b : JSVal) : truthy (jsOr a b) = (truthy a || truthy b) := by
  unfold jsOr
  by_cases h : truthy a <;> simp [h]

theorem isDefined_of_truthy (v : JSVal) (h : truthy v = true) : isDefined v = true := by
  cases v <;> simp [isDefined] <;> simp [truthy] at h

/-! ## Claims about the range builder -/

/-- Claim C1, counterexample: for the options object supplying the mixed
pair `gt = 'a'`, `lte = 'b'` (so the `gt` key was used for the lower bound
and `lte`, not `lt`, for the upper bound), the claimed rule — lower-bound
exclusivity iff `gt` was used, upper-bound exclusivity iff `lt` was used —
demands flags `(true, false)`, but `getRange` produces `(false, true)`:
the source derives the flags from the presence of the `lt` and `gt` keys
respectively. -/
theorem getRange_mixed_pair_counterexample :
    ¬ (∀ l u lo uo,
        getRange ⟨JSVal.undef, JSVal.str "b", JSVal.str "a", JSVal.undef⟩ =
          some (KeyRange.bound l u lo uo) →
        (lo = true ↔ isDefined (JSVal.str "a") = true) ∧
        (uo = true ↔ isDefined JSVal.undef = true)) := by
  intro h
  have h2 := h (JSVal.str "a") (JSVal.str "b") false true (by decide)
  simp [isDefined] at h2

/-- Claim C1, amended: when the two bounds are supplied as a
style-consistent pair — `gt` together with `lt` (with `gte` and `lte`
absent), or `gte` together with `lte` (with `gt` and `lt` absent) — with
truthy values, `getRange` builds a bounded range whose lower-bound
exclusivity flag is true iff the `gt` key was used and whose upper-bound
exclusivity flag is true iff the `lt` key was used (both flags true in the
`gt`/`lt` case, both false in the `gte`/`lte` case).  For mixed pairs the
source instead derives the lower flag from the presence of `lt` and the
upper flag from the presence of `gt`. -/
theorem getRange_consistent_pairs (o : RangeOpts) :
    (o.gte = JSVal.undef → o.lte = JSVal.undef →
      truthy o.gt = true → truthy o.lt = true →
      getRange o = some (KeyRange.bound o.gt o.lt true true)) ∧
    (o.gt = JSVal.undef → o.lt = JSVal.undef →
      truthy o.gte = true → truthy o.lte = true →
      getRange o = some (KeyRange.bound o.gte o.lte false false)) := by
  constructor
  · intro h1 h2 h3 h4
    have hdl : isDefined o.lt = true := isDefined_of_truthy _ h4
    have hdg : isDefined o.gt = true := isDefined_of_truthy _ h3
    have hu : truthy JSVal.undef = false := rfl
    simp [getRange, jsOr, h1, h2, h3, h4, hu, hdl, hdg]
  · intro h1 h2 h3 h4
    have hu : truthy JSVal.undef = false := rfl
    simp [getRange, jsOr, h1, h2, h3, h4, hu, isDefined]

/-- Witness for `getRange_consistent_pairs` at the concrete input
`{gt: 'a', lt: 'b'}`. -/
theorem getRange_consistent_pairs_witness :
    getRange ⟨JSVal.str "b", JSVal.undef, JSVal.str "a", JSVal.undef⟩ =
      some (KeyRange.bound (JSVal.str "a") (JSVal.str "b") true true) :=
  (getRange_consistent_pairs
    ⟨JSVal.str "b", JSVal.undef, JSVal.str "a", JSVal.undef⟩).1
    rfl rfl (by decide) (by decide)

/-- Claim C9: when every supplied bound key is falsy (for example `0`, the
empty string, or `null`), `getRange` returns the unbounded full-table scan,
because bound presence is decided by the truthiness of `o.lte || o.lt` and
`o.gte || o.gt`. -/
theorem getRange_falsy_bounds (o : RangeOpts)
    (h1 : truthy o.lt = false) (h2 : truthy o.lte = false)
    (h3 : truthy o.gt = false) (h4 : truthy o.gte = false) :
    getRange o = none := by
  simp [getRange, truthy_jsOr, h1, h2, h3, h4]

/-- Witness for `getRange_falsy_bounds` at the concrete input
`{lt: 0, lte: '', gt: null}`. -/
theorem getRange_falsy_bounds_witness :
    getRange ⟨JSVal.num 0, JSVal.str "", JSVal.null, JSVal.undef⟩ = none :=
  getRange_falsy_bounds ⟨JSVal.num 0, JSVal.str "", JSVal.null, JSVal.undef⟩
    (by decide) (by decide) (by decide) (by decide)

/-! ## Claims about the point operations -/

/-- Claim C3, evaluated at the failing input: when `db.transaction` itself
throws (for example the object store is missing), `count` does not resolve
`{err}` — `getStore` returns an orphaned rejected promise, the caller's
destructuring leaves `store` equal to `undefined`, and `store.count()`
throws a `TypeError` inside the executor, so the operation's promise is
rejected. -/
theorem count_tx_throw_rejects :
    count_run false (some (Err.target 7)) (Except.ok 0) =
      ([], JSResult.rejected Err.typeErr) := rfl

/-- Claim C4, counterexample: with the process-wide hook set, an
engine-reported error in `count` (and in `drop`) is not passed to the hook
— the hook-invocation list of both operations is empty, while the claim
requires the hook to be invoked with the error. -/
theorem count_drop_error_hook_counterexample :
    (count_run true none (Except.error (Err.target 3))).1 = [] ∧
    (drop_run true (DropOutcome.errored (Err.target 3))).1 = [] :=
  ⟨rfl, rfl⟩

/-- Claim C4, amended: when `Indexed.onerror` is set, every transport-level
error in `has`, `get`, `put`, `del`, `batch`, and the streaming `read`
(both a cursor-request error and a secondary-lookup error) invokes the hook
with the error, in addition to the per-call result; `count` and `drop`
never invoke the hook — their error handlers only resolve `{err}`. -/
theorem error_hook_coverage (e : Err) (k v : JSVal) :
    (has_run true none (Except.error e)).1 = [e] ∧
    (get_run true none (Except.error e)).1 = [e] ∧
    (put_run true none (Except.error e)).1 = [e] ∧
    (del_run true none (Except.error e)).1 = [e] ∧
    (batch_run true none [] (Except.error e)).2.1 = [e] ∧
    (readGoE true (fun _ => StepFate.cursorErr e) none 0 0 []).2 = [e] ∧
    (readGoE true (fun _ => StepFate.getErr e) none 0 0 [(k, v)]).2 = [e] ∧
    (count_run true none (Except.error e)).1 = [] ∧
    (drop_run true (DropOutcome.errored e)).1 = [] ∧
    (drop_run true (DropOutcome.blocked e)).1 = [] := by
  refine ⟨rfl, rfl, rfl, rfl, rfl, ?_, ?_, rfl, rfl, rfl⟩ <;> simp [readGoE]

/-- Claim C5: with a healthy transaction, `get(k)` on table contents with
no record for `k` resolves `{err: NotFound}` (a resolved value, not a
rejection) and `has(k)` resolves `{data: false}`; on contents holding a
record for `k`, `get(k)` resolves `{data: v}` with that record's stored
value and `has(k)` resolves `{data: true}`.  In neither case is the
undefined-result path treated as a transport error: the hook is never
invoked. -/
theorem get_has_presence (hookSet : Bool) (tbl : List Row) (k : JSVal) :
    (store_get tbl k = none →
      get_run hookSet none (Except.ok (store_get tbl k)) =
        ([], JSResult.resolved (OpOut.err Err.notFound)) ∧
      has_run hookSet none (Except.ok (store_get tbl k)) =
        ([], JSResult.resolved (OpOut.data (JSVal.bool false)))) ∧
    (∀ rec, store_get tbl k = some rec →
      get_run hookSet none (Except.ok (store_get tbl k)) =
        ([], JSResult.resolved (OpOut.data rec.2)) ∧
      has_run hookSet none (Except.ok (store_get tbl k)) =
        ([], JSResult.resolved (OpOut.data (JSVal.bool true)))) := by
  constructor
  · intro h
    rw [h]
    exact ⟨rfl, rfl⟩
  · intro rec h
    rw [h]
    exact ⟨rfl, rfl⟩

/-- Witness for `get_has_presence` on the one-record table
`[('a', 1)]`, at the absent key `'q'` and the present key `'a'`. -/
theorem get_has_presence_witness :
    get_run true none (Except.ok (store_get [(JSVal.str "a", JSVal.num 1)] (JSVal.str "q"))) =
      ([], JSResult.resolved (OpOut.err Err.notFound)) ∧
    has_run true none (Except.ok (store_get [(JSVal.str "a", JSVal.num 1)] (JSVal.str "a"))) =
      ([], JSResult.resolved (OpOut.data (JSVal.bool true))) :=
  ⟨((get_has_presence true [(JSVal.str "a", JSVal.num 1)] (JSVal.str "q")).1 (by decide)).1,
    ((get_has_presence true [(JSVal.str "a", JSVal.num 1)] (JSVal.str "a")).2
      (JSVal.str "a", JSVal.num 1) (by decide)).2⟩

/-! ## Claims about batch -/

theorem batch_queue_append (l1 l2 : List BatchOp) :
    batch_queue (l1 ++ l2) = batch_queue l1 ++ batch_queue l2 := by
  induction l1 with
  | nil => simp [batch_queue]
  | cons op rest ih => simp [batch_queue, ih]

/-- Claim C7: a batch element whose `type` is neither `'put'` nor `'del'`
is silently skipped — it queues nothing on the store, leaves the settled
result (and hence error reporting) unchanged, and the remaining recognized
operations are queued exactly as if the element were absent, in list
order. -/
theorem batch_unknown_type_skipped (pre post : List BatchOp) (op : BatchOp)
    (h1 : op.type ≠ "put") (h2 : op.type ≠ "del") :
    batch_queue (pre ++ op :: post) = batch_queue (pre ++ post) ∧
    (∀ hookSet txThrows txOutcome,
      batch_run hookSet txThrows (pre ++ op :: post) txOutcome =
        batch_run hookSet txThrows (pre ++ post) txOutcome) ∧
    (∀ tbl, applyActions tbl (batch_queue (pre ++ op :: post)) =
      applyActions tbl (batch_queue (pre ++ post))) := by
  have he : eachOp op = [] := by simp [eachOp, h1, h2]
  have hq : batch_queue (pre ++ op :: post) = batch_queue (pre ++ post) := by
    rw [batch_queue_append, batch_queue_append]
    simp [batch_queue, he]
  refine ⟨hq, ?_, ?_⟩
  · intro hookSet txThrows txOutcome
    cases txThrows with
    | some e => rfl
    | none => cases txOutcome <;> simp [batch_run, hq]
  · intro tbl
    rw [hq]

/-- Witness for `batch_unknown_type_skipped`: a batch of a `put`, an
unrecognized `'frob'` element, and a `del`, queues exactly the `put` and
the `del`. -/
theorem batch_unknown_type_skipped_witness :
    batch_queue [⟨"put", JSVal.str "a", JSVal.num 1⟩,
        ⟨"frob", JSVal.str "x", JSVal.num 9⟩,
        ⟨"del", JSVal.str "b", JSVal.undef⟩] =
      batch_queue [⟨"put", JSVal.str "a", JSVal.num 1⟩,
        ⟨"del", JSVal.str "b", JSVal.undef⟩] :=
  (batch_unknown_type_skipped [⟨"put", JSVal.str "a", JSVal.num 1⟩]
    [⟨"del", JSVal.str "b", JSVal.undef⟩]
    ⟨"frob", JSVal.str "x", JSVal.num 9⟩ (by decide) (by decide)).1

/-! ## Claims about the streaming read pipeline -/

theorem readGoE_shape (hookSet : Bool) (fates : Nat → StepFate) (limit : Option Nat) :
    ∀ (recs : List Row) (idx count : Nat),
      ∃ ds t, (readGoE hookSet fates limit idx count recs).1 = ds ++ [t] ∧
        (∀ e ∈ ds, ∃ k v, e = ReadEvent.ondata k v) ∧
        (t = ReadEvent.onend ∨ ∃ er, t = ReadEvent.onerror er) := by
  intro recs
  induction recs with
  | nil =>
    intro idx count
    cases hf : fates idx with
    | cursorErr e =>
      exact ⟨[], .onerror e, by simp [readGoE, hf], by simp, Or.inr ⟨e, rfl⟩⟩
    | ok => exact ⟨[], .onend, by simp [readGoE, hf], by simp, Or.inl rfl⟩
    | getErr e => exact ⟨[], .onend, by simp [readGoE, hf], by simp, Or.inl rfl⟩
  | cons p rest ih =>
    intro idx count
    obtain ⟨k, v⟩ := p
    cases hf : fates idx with
    | cursorErr e =>
      exact ⟨[], .onerror e, by simp [readGoE, hf], by simp, Or.inr ⟨e, rfl⟩⟩
    | getErr e =>
      exact ⟨[], .onerror e, by simp [readGoE, hf], by simp, Or.inr ⟨e, rfl⟩⟩
    | ok =>
      by_cases hl : truthyLimit limit = true
      · by_cases hc : count = limit.getD 0 - 1
        · exact ⟨[.ondata k v], .onend, by simp [readGoE, hf, hl, hc],
            by simp, Or.inl rfl⟩
        · obtain ⟨ds, t, h1, h2, h3⟩ := ih (idx + 1) (count + 1)
          refine ⟨.ondata k v :: ds, t, ?_, ?_, h3⟩
          · simp [readGoE, hf, hl, hc, h1]
          · intro e he
            rcases List.mem_cons.mp he with h | h
            · exact ⟨k, v, h⟩
            · exact h2 e h
      · obtain ⟨ds, t, h1, h2, h3⟩ := ih (idx + 1) count
        refine ⟨.ondata k v :: ds, t, ?_, ?_, h3⟩
        · simp [readGoE, hf, hl, h1]
        · intro e he
          rcases List.mem_cons.mp he with h | h
          · exact ⟨k, v, h⟩
          · exact h2 e h

/-- Claim C8: every run of the streaming read pipeline delivers a
(possibly empty) block of `ondata` events followed by exactly one terminal
event, `onend` or `onerror`; once the terminal event has fired no further
`ondata`, `onerror`, or `onend` is ever delivered, and in particular
`onend` fires at most once. -/
theorem read_stream_terminal (hookSet : Bool) (fates : Nat → StepFate) (limit : Option Nat)
    (matching : List Row) :
    ∃ ds t, (readGoE hookSet fates limit 0 0 matching).1 = ds ++ [t] ∧
      (∀ e ∈ ds, ∃ k v, e = ReadEvent.ondata k v) ∧
      (t = ReadEvent.onend ∨ ∃ er, t = ReadEvent.onerror er) :=
  readGoE_shape hookSet fates limit matching 0 0

theorem readGoE_limit_hit (hookSet : Bool) (fates : Nat → StepFate) (n : Nat) :
    ∀ (recs : List Row) (idx count : Nat), count < n → n - count ≤ recs.length →
      (∀ i, i < n - count → fates (idx + i) = StepFate.ok) →
      readGoE hookSet fates (some n) idx count recs =
        ((recs.take (n - count)).map (fun p => ReadEvent.ondata p.1 p.2) ++
          [ReadEvent.onend], []) := by
  intro recs
  induction recs with
  | nil =>
    intro idx count hc hlen _
    exfalso
    simp at hlen
    omega
  | cons p rest ih =>
    intro idx count hc hlen hok
    obtain ⟨k, v⟩ := p
    have hf : fates idx = StepFate.ok := by
      have h := hok 0 (by omega)
      simpa using h
    have hl : truthyLimit (some n) = true := by
      simp [truthyLimit]
      omega
    by_cases hcount : count = n - 1
    · have ht : n - count = 1 := by omega
      rw [ht]
      simp [readGoE, hf, hl, hcount]
    · have hc1 : count + 1 < n := by omega
      have hlen1 : n - (count + 1) ≤ rest.length := by
        simp at hlen
        omega
      have hok1 : ∀ i, i < n - (count + 1) → fates (idx + 1 + i) = StepFate.ok := by
        intro i hi
        have h := hok (i + 1) (by omega)
        have he : idx + (i + 1) = idx + 1 + i := by omega
        rwa [he] at h
      have ihh := ih (idx + 1) (count + 1) hc1 hlen1 hok1
      have htake : n - count = (n - (count + 1)) + 1 := by omega
      rw [htake]
      simp [readGoE, hf, hl, hcount, ihh, List.take_succ_cons]

/-- Claim C2: with `options.limit = N`, `N ≥ 1`, over a range matching more
than `N` records, the read pipeline fires `ondata` exactly `N` times — for
the first `N` records in cursor order — then fires `onend` immediately
after the `N`-th `ondata` and delivers nothing further; the engine's
behaviour at cursor steps beyond the `N`-th is irrelevant because the
cursor is never advanced past it. -/
theorem read_limit_early_termination (hookSet : Bool) (fates : Nat → StepFate)
    (matching : List Row) (n : Nat) (h1 : 1 ≤ n) (h2 : n < matching.length)
    (h3 : ∀ i, i < n → fates i = StepFate.ok) :
    readGoE hookSet fates (some n) 0 0 matching =
      ((matching.take n).map (fun p => ReadEvent.ondata p.1 p.2) ++
        [ReadEvent.onend], []) := by
  have hok : ∀ i, i < n - 0 → fates (0 + i) = StepFate.ok := by
    intro i hi
    simpa using h3 i (by omega)
  have h := readGoE_limit_hit hookSet fates n matching 0 0 (by omega) (by omega) hok
  simpa using h

/-- Witness for `read_limit_early_termination`: limit 2 over three
matching records emits the first two records then `onend`. -/
theorem read_limit_early_termination_witness :
    readGoE false (fun _ => StepFate.ok) (some 2) 0 0
        [(JSVal.num 1, JSVal.num 10), (JSVal.num 2, JSVal.num 20),
          (JSVal.num 3, JSVal.num 30)] =
      ([ReadEvent.ondata (JSVal.num 1) (JSVal.num 10),
        ReadEvent.ondata (JSVal.num 2) (JSVal.num 20), ReadEvent.onend], []) := by
  have h := read_limit_early_termination false (fun _ => StepFate.ok)
    [(JSVal.num 1, JSVal.num 10), (JSVal.num 2, JSVal.num 20), (JSVal.num 3, JSVal.num 30)]
    2 (by decide) (by decide) (fun i _ => rfl)
  simpa using h

theorem readGoE_no_limit (hookSet : Bool) (limit : Option Nat)
    (h : truthyLimit limit = false) :
    ∀ (recs : List Row) (idx count : Nat),
      readGoE hookSet (fun _ => StepFate.ok) limit idx count recs =
        (recs.map (fun p => ReadEvent.ondata p.1 p.2) ++ [ReadEvent.onend], []) := by
  intro recs
  induction recs with
  | nil =>
    intro idx count
    simp [readGoE]
  | cons p rest ih =>
    intro idx count
    obtain ⟨k, v⟩ := p
    simp [readGoE, h, ih]

/-- Claim C10: a falsy `options.limit` (`0`, or an absent limit modelled by
`none`) performs no early termination — the error-free pipeline streams
every matching record and then fires `onend`, identically to omitting the
limit altogether, because the limit check requires a truthy
`options.limit`. -/
theorem read_falsy_limit_full_scan (matching : List Row) (limit : Option Nat)
    (h : truthyLimit limit = false) :
    read_run matching limit =
      matching.map (fun p => ReadEvent.ondata p.1 p.2) ++ [ReadEvent.onend] ∧
    read_run matching limit = read_run matching none := by
  have h1 := readGoE_no_limit false limit h matching 0 0
  have h2 := readGoE_no_limit false none rfl matching 0 0
  constructor
  · simp [read_run, h1]
  · simp [read_run, h1, h2]

/-- Witness for `read_falsy_limit_full_scan` with `limit = 0` over one
matching record. -/
theorem read_falsy_limit_full_scan_witness :
    read_run [(JSVal.num 1, JSVal.num 2)] (some 0) =
      [ReadEvent.ondata (JSVal.num 1) (JSVal.num 2), ReadEvent.onend] ∧
    read_run [(JSVal.num 1, JSVal.num 2)] (some 0) =
      read_run [(JSVal.num 1, JSVal.num 2)] none := by
  have h := read_falsy_limit_full_scan [(JSVal.num 1, JSVal.num 2)] (some 0) rfl
  simpa using h

/-! ## Claims about readAll -/

theorem getLast_append_single {α : Type} (l : List α) (a : α) :
    (l ++ [a]).getLast? = some a := by
  induction l with
  | nil => rfl
  | cons x xs ih =>
    cases xs with
    | nil => rfl
    | cons y ys =>
      simp only [List.cons_append] at ih ⊢
      rw [List.getLast?_cons_cons]
      exact ih

theorem readAll_go_data_block (hookSet : Bool) :
    ∀ (ds : List ReadEvent) (rows : List Row) (rest : List ReadEvent),
      (∀ e ∈ ds, ∃ k v, e = ReadEvent.ondata k v) →
      readAll_go hookSet rows (ds ++ rest) =
        readAll_go hookSet
          (List.foldl (fun m p => mapSet m p.1 p.2) rows (ondataPairs ds)) rest := by
  intro ds
  induction ds with
  | nil =>
    intro rows rest _
    simp [ondataPairs]
  | cons e ds ih =>
    intro rows rest h
    obtain ⟨k, v, he⟩ := h e (List.mem_cons_self e ds)
    subst he
    have hpairs : ondataPairs (ReadEvent.ondata k v :: ds) = (k, v) :: ondataPairs ds := by
      simp [ondataPairs]
    rw [List.cons_append]
    show readAll_go hookSet (mapSet rows k v) (ds ++ rest) = _
    rw [ih (mapSet rows k v) rest (fun x hx => h x (List.mem_cons_of_mem _ hx)),
      hpairs, List.foldl_cons]

theorem mapSet_lookup (k0 v0 k : JSVal) :
    ∀ m : List Row,
      mapLookup (mapSet m k0 v0) k = if k0 = k then some v0 else mapLookup m k := by
  intro m
  induction m with
  | nil => simp [mapSet, mapLookup]
  | cons p rest ih =>
    obtain ⟨p1, p2⟩ := p
    by_cases hp : p1 = k0
    · subst hp
      by_cases hk : p1 = k
      · simp [mapSet, mapLookup, hk]
      · simp [mapSet, mapLookup, hk]
    · by_cases hpk : p1 = k
      · have hk : ¬ k0 = k := fun h => hp (hpk.trans h.symm)
        have hk2 : ¬ k = k0 := fun h => hk h.symm
        simp [mapSet, mapLookup, hp, hpk, hk, hk2]
      · simp [mapSet, mapLookup, hp, hpk, ih]

theorem mapSet_keys (k0 v0 : JSVal) :
    ∀ m : List Row,
      (mapSet m k0 v0).map Prod.fst =
        if k0 ∈ m.map Prod.fst then m.map Prod.fst else m.map Prod.fst ++ [k0] := by
  intro m
  induction m with
  | nil => simp [mapSet]
  | cons p rest ih =>
    obtain ⟨p1, p2⟩ := p
    by_cases hp : p1 = k0
    · subst hp
      simp [mapSet]
    · by_cases hm : k0 ∈ rest.map Prod.fst
      · simp [mapSet, hp, ih, hm, Ne.symm hp]
      · simp [mapSet, hp, ih, hm, Ne.symm hp]

theorem foldl_mapSet_keys :
    ∀ (pairs : List Row) (m : List Row),
      (List.foldl (fun m p => mapSet m p.1 p.2) m pairs).map Prod.fst =
        firstDedupFrom (m.map Prod.fst) (pairs.map Prod.fst) := by
  intro pairs
  induction pairs with
  | nil =>
    intro m
    simp [firstDedupFrom]
  | cons p rest ih =>
    intro m
    obtain ⟨k, v⟩ := p
    rw [List.foldl_cons]
    show (List.foldl (fun m p => mapSet m p.1 p.2) (mapSet m k v) rest).map Prod.fst = _
    rw [ih (mapSet m k v), mapSet_keys]
    by_cases hm : k ∈ m.map Prod.fst <;> simp [hm, firstDedupFrom]

theorem foldl_mapSet_lookup :
    ∀ (pairs : List Row) (m : List Row) (k : JSVal),
      mapLookup (List.foldl (fun m p => mapSet m p.1 p.2) m pairs) k =
        match lastAssoc pairs k with
        | some v => some v
        | none => mapLookup m k := by
  intro pairs
  induction pairs with
  | nil =>
    intro m k
    simp [lastAssoc]
  | cons p rest ih =>
    intro m k
    obtain ⟨k0, v0⟩ := p
    rw [List.foldl_cons]
    show mapLookup (List.foldl (fun m p => mapSet m p.1 p.2) (mapSet m k0 v0) rest) k = _
    rw [ih (mapSet m k0 v0) k]
    cases hrest : lastAssoc rest k with
    | some v => simp [lastAssoc, hrest]
    | none =>
      rw [mapSet_lookup]
      by_cases hk : k0 = k <;> simp [lastAssoc, hrest, hk]

theorem foldMapSet_lookup (pairs : List Row) (k : JSVal) :
    mapLookup (foldMapSet pairs) k = lastAssoc pairs k := by
  have h := foldl_mapSet_lookup pairs [] k
  unfold foldMapSet
  rw [h]
  cases lastAssoc pairs k <;> simp [mapLookup]

theorem foldMapSet_keys (pairs : List Row) :
    (foldMapSet pairs).map Prod.fst = firstOccurrences (pairs.map Prod.fst) := by
  have h := foldl_mapSet_keys pairs []
  simpa [foldMapSet, firstOccurrences] using h

/-- Claim C6: `readAll` accumulates every `ondata(key, value)` event of the
read pipeline into an ordered mapping and resolves `{data: mapping}` when
`onend` fires, or `{err}` when `onerror` fires; the mapping assigns each
key the value delivered last for it, and its key order is the order of
first delivery (insertion order follows cursor order). -/
theorem readAll_aggregates (hookSet : Bool) (fates : Nat → StepFate) (limit : Option Nat)
    (matching : List Row) :
    ((readGoE hookSet fates limit 0 0 matching).1.getLast? = some ReadEvent.onend →
      (readAll_run hookSet (readGoE hookSet fates limit 0 0 matching).1).1 =
        some (ReadAllOut.data
          (foldMapSet (ondataPairs (readGoE hookSet fates limit 0 0 matching).1)))) ∧
    (∀ e, (readGoE hookSet fates limit 0 0 matching).1.getLast? =
        some (ReadEvent.onerror e) →
      (readAll_run hookSet (readGoE hookSet fates limit 0 0 matching).1).1 =
        some (ReadAllOut.err e)) ∧
    (∀ pairs k, mapLookup (foldMapSet pairs) k = lastAssoc pairs k) ∧
    (∀ pairs, (foldMapSet pairs).map Prod.fst = firstOccurrences (pairs.map Prod.fst)) := by
  obtain ⟨ds, t, hsplit, hdata, hterm⟩ := readGoE_shape hookSet fates limit matching 0 0
  refine ⟨?_, ?_, foldMapSet_lookup, foldMapSet_keys⟩
  · intro hlast
    rw [hsplit, getLast_append_single] at hlast
    have ht := Option.some.inj hlast
    subst ht
    rw [hsplit]
    unfold readAll_run
    rw [readAll_go_data_block hookSet ds [] [ReadEvent.onend] hdata]
    simp [readAll_go, foldMapSet, ondataPairs, List.filterMap_append]
  · intro e hlast
    rw [hsplit, getLast_append_single] at hlast
    have ht := Option.some.inj hlast
    subst ht
    rw [hsplit]
    unfold readAll_run
    rw [readAll_go_data_block hookSet ds [] [ReadEvent.onerror e] hdata]
    simp [readAll_go]

/-- Witness for `readAll_aggregates`: an error-free scan over two records
resolves the two-entry mapping in cursor order. -/
theorem readAll_aggregates_witness :
    (readAll_run false (readGoE false (fun _ => StepFate.ok) none 0 0
        [(JSVal.str "a", JSVal.num 1), (JSVal.str "b", JSVal.num 2)]).1).1 =
      some (ReadAllOut.data [(JSVal.str "a", JSVal.num 1), (JSVal.str "b", JSVal.num 2)]) := by
  have h := (readAll_aggregates false (fun _ => StepFate.ok) none
    [(JSVal.str "a", JSVal.num 1), (JSVal.str "b", JSVal.num 2)]).1 rfl
  simpa using h
